import Mathlib

/-!
Shallow embedding of the aio-translator middleware core:
the style-transfer normalizer (`style_transfer.rs`), the rate limiter
(`rate_limit.rs`), the dummy backends (`dummy/none`, `dummy/original`) and the
model-lifecycle part of the JParaCrawl backend (`offline/jparacrawl`).

Rust strings are modelled as `List Char`; Rust byte lengths (`str::len`) as the
sum of UTF-8 sizes; machine integers as `Nat`; fallible calls as `Except`;
`Instant` timestamps as `Nat`; asynchronous executions as explicit traces of
attempt times; shared mutable state as explicit state passing.
-/

namespace AioTranslator

/-- The language enum (generated by `generate_language!()`; opaque,
equality-comparable identifier per the spec).  Only the constructors the
embedded code inspects are named; `Other n` stands for the remaining tags. -/
inductive Language where
  | English
  | Japanese
  | Arabic
  | German
  | Other (n : Nat)
deriving DecidableEq

/-- Error values carried by `anyhow::Result`; constructors follow the error
taxonomy of the repository (`error::Error`) plus an opaque remainder. -/
inductive TransError where
  | UnknownLanguageGroup (src : Option Language) (tgt : Language)
  | CouldNotMapLanguage (s : Option Language)
  | DownloadFailed (name : List Char)
  | HashMismatch (name : List Char)
  | BuildFailed (name : List Char)
  | OtherError (n : Nat)
deriving DecidableEq

/-- `TranslationOutput { text, lang }` from `interface/src/lib.rs`. -/
structure TranslationOutput where
  text : List Char
  lang : Option Language
deriving DecidableEq

/-- `TranslationListOutput { text, lang }` from `interface/src/lib.rs`. -/
structure TranslationListOutput where
  text : List (List Char)
  lang : Option Language
deriving DecidableEq

/-- Opaque prompt context (`prompt::PromptBuilder`); the embedded middleware
only ever passes it through. -/
structure PromptBuilder where
  context : List Char

/-- The `AsyncTranslator` capability as a record of functions: a wrapped
backend is an arbitrary inhabitant.  `localFlag` models `local()`
(renamed: `local` is a Lean keyword). -/
structure Translator where
  localFlag : Bool
  translate : List Char → Option PromptBuilder → Option Language → Language →
      Except TransError TranslationOutput
  translate_vec : List (List Char) → Option PromptBuilder → Option Language → Language →
      Except TransError TranslationListOutput

/-! ### Character classes (style_transfer.rs and its regex patterns) -/

/-- UTF-8 byte size of a character (Rust `str::len` counts bytes). -/
def utf8Len (c : Char) : Nat :=
  if c.toNat < 0x80 then 1
  else if c.toNat < 0x800 then 2
  else if c.toNat < 0x10000 then 3
  else 4

/-- Byte length of a Rust string (`str::len`). -/
def byteLen (s : List Char) : Nat := (s.map utf8Len).sum

/-- The Unicode `White_Space` set: what Rust `char::is_whitespace`
(`split_whitespace`) and the regex class in the patterns of
`clean_translation_output` match.  The table is small and fixed; it is listed
exactly. -/
def rsSpace (c : Char) : Bool :=
  let n := c.toNat
  (9 ≤ n && n ≤ 13) || n == 32 || n == 0x85 || n == 0xA0 || n == 0x1680 ||
    (0x2000 ≤ n && n ≤ 0x200A) || n == 0x2028 || n == 0x2029 || n == 0x202F ||
    n == 0x205F || n == 0x3000

/-- The five sentence/clause marks `[.,;!?]` used by every pattern in
`clean_translation_output`. -/
def p1 (c : Char) : Bool :=
  c == '.' || c == ',' || c == ';' || c == '!' || c == '?'

/-- Word character of the regex patterns.  The regex engine's class is
Unicode-aware; it is modelled exactly on ASCII (`[0-9A-Za-z_]`), which is the
only range the verified statements evaluate it on. -/
def is_word_char (c : Char) : Bool :=
  c.isAlpha || c.isDigit || c == '_'

/-- Unicode `Zs` (SpaceSeparator) category, listed exactly, as consulted by
`is_whitespace` in `style_transfer.rs` through `get_general_category`. -/
def isSpaceSeparator (c : Char) : Bool :=
  let n := c.toNat
  n == 0x20 || n == 0xA0 || n == 0x1680 || (0x2000 ≤ n && n ≤ 0x200A) ||
    n == 0x202F || n == 0x205F || n == 0x3000

/-- Unicode punctuation general categories (`Pc Pd Pe Pf Pi Po Ps`) beyond the
ASCII ranges that `is_punctuation` checks explicitly.  Modelled on the Latin-1
block (its exact members); higher code points, which no verified statement
evaluates, are modelled as non-members. -/
def isUnicodePunct (c : Char) : Bool :=
  let n := c.toNat
  n == 0xA1 || n == 0xA7 || n == 0xAB || n == 0xB6 || n == 0xB7 ||
    n == 0xBB || n == 0xBF

/-- Unicode `Cf` (Format) category as consulted by `is_control`; modelled by
its principal BMP members (soft hyphen, zero-width and directional marks,
BOM); remaining members, never evaluated by the verified statements, are
modelled as non-members. -/
def isFormatChar (c : Char) : Bool :=
  let n := c.toNat
  n == 0xAD || (0x200B ≤ n && n ≤ 0x200F) || (0x202A ≤ n && n ≤ 0x202E) ||
    (0x2060 ≤ n && n ≤ 0x2064) || n == 0xFEFF

/-- `is_punctuation` from `style_transfer.rs`: the four explicit ASCII ranges,
then the Unicode punctuation categories. -/
def is_punctuation (c : Char) : Bool :=
  let cp := c.toNat
  (33 ≤ cp && cp ≤ 47) || (58 ≤ cp && cp ≤ 64) || (91 ≤ cp && cp ≤ 96) ||
    (123 ≤ cp && cp ≤ 126) || isUnicodePunct c

/-- `is_whitespace` from `style_transfer.rs`: space, tab, newline, carriage
return, NUL, then the `SpaceSeparator` category. -/
def is_whitespace (c : Char) : Bool :=
  c == ' ' || c == '\t' || c == '\n' || c == '\r' || c.toNat == 0 ||
    isSpaceSeparator c

/-- `is_control` from `style_transfer.rs`: tab/newline/carriage-return are not
control; otherwise the `Control` (`Cc`, exactly `0x00-0x1F` and `0x7F-0x9F`)
or `Format` categories. -/
def is_control (c : Char) : Bool :=
  if c == '\t' || c == '\n' || c == '\r' then false
  else (c.toNat < 32 || (127 ≤ c.toNat && c.toNat ≤ 159)) || isFormatChar c

/-- `char::is_numeric` (Unicode `Nd Nl No`), modelled exactly on ASCII digits,
the only range the verified statements evaluate it on. -/
def is_numeric (c : Char) : Bool := c.isDigit

/-- `is_valuable_char` from `style_transfer.rs`. -/
def is_valuable_char (ch : Char) : Bool :=
  !(is_punctuation ch) && !(is_control ch) && !(is_whitespace ch) && !(is_numeric ch)

/-- `is_valuable_text` from `style_transfer.rs`. -/
def is_valuable_text (text : List Char) : Bool := text.any is_valuable_char

/-! ### The text passes of `clean_translation_output`

Each regex `replace_all` is translated as a left-to-right, non-overlapping
scanner.  The scanners take a fuel argument (initialised with the list length,
an upper bound on the number of scan positions) so that they are structurally
recursive and reduce by evaluation. -/

/-- `trans.split_whitespace().collect::<Vec<_>>().join(" ")`: the word
splitter, accumulator-style. -/
def splitWsGo : List Char → List Char → List (List Char)
  | [], acc => if acc.isEmpty then [] else [acc.reverse]
  | c :: rest, acc =>
    if rsSpace c then
      if acc.isEmpty then splitWsGo rest [] else acc.reverse :: splitWsGo rest []
    else splitWsGo rest (c :: acc)

/-- Whitespace collapsing: split on Unicode whitespace and re-join with single
spaces. -/
def collapseWs (l : List Char) : List Char :=
  List.intercalate [' '] (splitWsGo l [])

/-- Head of the rest satisfies the regex word class (a `(?=\w)` lookahead). -/
def headIsWord : List Char → Bool
  | c :: _ => is_word_char c
  | [] => false

/-- Head of the rest is one of `[.,;!?]`. -/
def headP1 : List Char → Bool
  | c :: _ => p1 c
  | [] => false

/-- `([^\.,;!?\s])([.,;!?])(?=\w)` replaced by `$1$2 `: insert a space after a
sentence mark that follows a non-mark non-space and precedes a word
character. -/
def r1 : List Char → List Char
  | [] => []
  | [a] => [a]
  | a :: b :: rest =>
    if !(p1 a) && !(rsSpace a) && p1 b && headIsWord rest then
      a :: b :: ' ' :: r1 rest
    else a :: r1 (b :: rest)

/-- `([.,;!?])\s+(?=[.,;!?]|$)` replaced by `$1`: drop whitespace between a
sentence mark and a following mark or the end of the string. -/
def r2go : Nat → List Char → List Char
  | 0, l => l
  | _, [] => []
  | fuel + 1, a :: rest =>
    if p1 a then
      let sp := rest.takeWhile rsSpace
      let rest' := rest.dropWhile rsSpace
      if !sp.isEmpty && (rest'.isEmpty || headP1 rest') then a :: r2go fuel rest'
      else a :: r2go fuel rest
    else a :: r2go fuel rest

/-- Wrapper running `r2go` with sufficient fuel. -/
def r2 (l : List Char) : List Char := r2go l.length l

/-- `([.,;!?\w])\s+([.,;!?])` replaced by `$1$2` (applied unless the target
language is Arabic): remove whitespace between a mark-or-word character and a
following sentence mark. -/
def r3go : Nat → List Char → List Char
  | 0, l => l
  | _, [] => []
  | fuel + 1, a :: rest =>
    if p1 a || is_word_char a then
      let sp := rest.takeWhile rsSpace
      match rest.dropWhile rsSpace with
      | b :: rest'' =>
        if !sp.isEmpty && p1 b then a :: b :: r3go fuel rest''
        else a :: r3go fuel rest
      | [] => a :: r3go fuel rest
    else a :: r3go fuel rest

/-- Wrapper running `r3go` with sufficient fuel. -/
def r3 (l : List Char) : List Char := r3go l.length l

/-- `((?:\s|^)\.+)\s+(?=\w)` replaced by `$1`, matches whose group starts with
a whitespace character (the `^` alternative is handled by `r4`). -/
def r4go : Nat → List Char → List Char
  | 0, l => l
  | _, [] => []
  | fuel + 1, a :: rest =>
    if rsSpace a then
      let dots := rest.takeWhile (· == '.')
      let rest1 := rest.dropWhile (· == '.')
      let sp := rest1.takeWhile rsSpace
      let rest2 := rest1.dropWhile rsSpace
      if !dots.isEmpty && !sp.isEmpty && headIsWord rest2 then
        a :: (dots ++ r4go fuel rest2)
      else a :: r4go fuel rest
    else a :: r4go fuel rest

/-- `((?:\s|^)\.+)\s+(?=\w)` replaced by `$1` (applied unless the target
language is Arabic): drop whitespace between leading/standalone dots and a
following word character. -/
def r4 (l : List Char) : List Char :=
  let dots := l.takeWhile (· == '.')
  let rest1 := l.dropWhile (· == '.')
  let sp := rest1.takeWhile rsSpace
  let rest2 := rest1.dropWhile rsSpace
  if !dots.isEmpty && !sp.isEmpty && headIsWord rest2 then
    dots ++ r4go rest2.length rest2
  else r4go l.length l

/-- The candidate string built for prefix length `i` inside
`repeating_sequence`: `seq.repeat(len / i)` followed by `seq[..len % i]`. -/
def tileCandidate (s : List Char) (i : Nat) : List Char :=
  (List.replicate (s.length / i) (s.take i)).flatten ++ (s.take i).take (s.length % i)

/-- `repeating_sequence` from `style_transfer.rs`: the first prefix length
`i ∈ 1..=len/2` whose tiling reconstructs the string, else the whole string. -/
def repeating_sequence (s : List Char) : List Char :=
  match (List.range' 1 (s.length / 2)).find? (fun i => decide (tileCandidate s i = s)) with
  | some i => s.take i
  | none => s

/-- The whitespace and punctuation normalization steps of
`clean_translation_output` (steps before the degenerate-repetition check);
the two extra passes are skipped for Arabic targets. -/
def normalizeSteps (to_lang : Language) (trans : List Char) : List Char :=
  let t1 := collapseWs trans
  let t2 := r1 t1
  let t3 := r2 t2
  if to_lang ≠ Language.Arabic then r4 (r3 t3) else t3

/-- `clean_translation_output` from `style_transfer.rs`.  The final Arabic
letter-joining pass calls the external `arabic_reshaper` crate; it is taken as
the explicit argument `reshape`.  Rust case mappings (`to_lowercase`,
`is_uppercase`, `to_uppercase().next().unwrap()`) are modelled by the ASCII
case maps, exact on every string the verified statements evaluate. -/
def clean_translation_output (reshape : List Char → List Char)
    (query trans : List Char) (to_lang : Language) : List Char :=
  let trans1 := normalizeSteps to_lang trans
  let seq := repeating_sequence (trans1.map Char.toLower)
  let trans2 :=
    if byteLen seq < byteLen query ∧ byteLen trans1 / 2 > byteLen seq then
      let reps := (List.replicate (max 1 (query.length / seq.length)) seq).flatten
      (query.zip reps).map (fun p => if p.1.isUpper then p.2.toUpper else p.2)
    else trans1
  if to_lang = Language.Arabic then reshape trans2 else trans2

/-! ### The StyleTransfer wrapper -/

/-- `StyleTransfer::translate`: identity short-circuit when the declared
source language equals the target, otherwise delegate and post-process
valuable output. -/
def StyleTransfer.translate (reshape : List Char → List Char) (t : Translator)
    (query : List Char) (context : Option PromptBuilder)
    (from_ : Option Language) (to_ : Language) : Except TransError TranslationOutput :=
  if from_ = some to_ then .ok ⟨query, from_⟩
  else
    match t.translate query context from_ to_ with
    | .error e => .error e
    | .ok tr =>
      if is_valuable_text tr.text then
        .ok ⟨clean_translation_output reshape query tr.text to_, tr.lang⟩
      else .ok ⟨tr.text, tr.lang⟩

/-- `StyleTransfer::translate_vec`: identity short-circuit, otherwise delegate
and per-item either clean the output (valuable) or substitute the original
query text (not valuable). -/
def StyleTransfer.translate_vec (reshape : List Char → List Char) (t : Translator)
    (query : List (List Char)) (context : Option PromptBuilder)
    (from_ : Option Language) (to_ : Language) : Except TransError TranslationListOutput :=
  if from_ = some to_ then .ok ⟨query, from_⟩
  else
    match t.translate_vec query context from_ to_ with
    | .error e => .error e
    | .ok tr =>
      .ok ⟨(query.zip tr.text).map
            (fun p => if is_valuable_text p.2
                      then clean_translation_output reshape p.1 p.2 to_
                      else p.1),
           tr.lang⟩

/-- `StyleTransfer::local` (renamed `localFlag`): passes through. -/
def StyleTransfer.localFlag (t : Translator) : Bool := t.localFlag

/-! ### The RateLimiter wrapper (`rate_limit.rs`)

`Instant` is modelled as a `Nat` timestamp; `Duration` as a `Nat`;
`duration_since` as truncated subtraction.  One iteration of the `acquire`
window loop is one *attempt* at a given time; the suspension (`sleep` and
retry) is modelled by processing a trace of attempt times. -/

/-- One iteration of the window loop in `RateLimiter::acquire` at time `now`:
purge timestamps older than `window` from the front, then either push `now`
(admitted) or leave the queue purged (the caller sleeps and retries). -/
def stepAcq (m w now : Nat) (q : List Nat) : List Nat × Bool :=
  let q' := q.dropWhile (fun t => decide (w < now - t))
  if q'.length < m then (q' ++ [now], true) else (q', false)

/-- Run a trace of window-loop attempts; returns the final queue and the list
of admitted timestamps, in order. -/
def runAcq (m w : Nat) : List Nat → List Nat → List Nat × List Nat
  | [], q => (q, [])
  | now :: rest, q =>
    match stepAcq m w now q with
    | (q', admitted) =>
      let r := runAcq m w rest q'
      (r.1, if admitted then now :: r.2 else r.2)

/-- The observation points of the sliding-window invariant: for every
admission in the trace, the admission time paired with the queue at the
instant the timestamp was pushed. -/
def admissionStates (m w : Nat) : List Nat → List Nat → List (Nat × List Nat)
  | [], _ => []
  | now :: rest, q =>
    match stepAcq m w now q with
    | (q', admitted) =>
      (if admitted then [(now, q')] else []) ++ admissionStates m w rest q'

/-- Retry the window loop along a schedule of attempt times until an attempt
admits; `none` when the schedule is exhausted while still waiting. -/
def tryAcquireWindow (m w : Nat) : List Nat → List Nat → Option (List Nat)
  | [], _ => none
  | now :: rest, q =>
    match stepAcq m w now q with
    | (q', true) => some q'
    | (q', false) => tryAcquireWindow m w rest q'

/-- The configuration a `RateLimiter` is constructed with: `concurrent_limit`
(`Semaphore` size) and the optional `(max_requests, window)` pair. -/
structure RLConfig where
  concurrent_limit : Option Nat
  window : Option (Nat × Nat)

/-- The mutable state of a `RateLimiter`: the timestamp queue and the number
of available semaphore permits. -/
structure RLState where
  queue : List Nat
  permits : Nat
deriving DecidableEq

/-- `RateLimiter::new`: records both optional caps; the timestamp queue
starts empty and the semaphore starts with `concurrent_limit` permits (see
`RateLimiter.initState`). -/
def RateLimiter.new (concurrent_limit : Option Nat) (max_requests : Option (Nat × Nat)) :
    RLConfig :=
  ⟨concurrent_limit, max_requests⟩

/-- Initial `RLState` for a fresh `RateLimiter`. -/
def RateLimiter.initState (concurrent_limit : Option Nat) : RLState :=
  ⟨[], concurrent_limit.getD 0⟩

/-- `RateLimiter::acquire`: window gate first (along the attempt schedule),
then the semaphore.  Returns the new state and whether a permit was taken;
`none` models a call still suspended (schedule exhausted or no permit
available). -/
def RateLimiter.acquire (cfg : RLConfig) (sched : List Nat) (s : RLState) :
    Option (RLState × Bool) :=
  let qres : Option (List Nat) :=
    match cfg.window with
    | none => some s.queue
    | some (m, w) => tryAcquireWindow m w sched s.queue
  match qres with
  | none => none
  | some q' =>
    match cfg.concurrent_limit with
    | none => some (⟨q', s.permits⟩, false)
    | some _ => if 0 < s.permits then some (⟨q', s.permits - 1⟩, true) else none

/-- `RateLimiter::translate`: acquire, delegate with the arguments unchanged,
then drop the permit (window timestamps are never released). -/
def RateLimiter.translate (cfg : RLConfig) (sched : List Nat) (s : RLState)
    (t : Translator) (query : List Char) (context : Option PromptBuilder)
    (from_ : Option Language) (to_ : Language) :
    Option (Except TransError TranslationOutput × RLState) :=
  (RateLimiter.acquire cfg sched s).map fun p =>
    (t.translate query context from_ to_,
     if p.2 then ⟨p.1.queue, p.1.permits + 1⟩ else p.1)

/-- `RateLimiter::translate_vec`: same shape as `translate`. -/
def RateLimiter.translate_vec (cfg : RLConfig) (sched : List Nat) (s : RLState)
    (t : Translator) (query : List (List Char)) (context : Option PromptBuilder)
    (from_ : Option Language) (to_ : Language) :
    Option (Except TransError TranslationListOutput × RLState) :=
  (RateLimiter.acquire cfg sched s).map fun p =>
    (t.translate_vec query context from_ to_,
     if p.2 then ⟨p.1.queue, p.1.permits + 1⟩ else p.1)

/-- `RateLimiter::local` (renamed `localFlag`): passes through. -/
def RateLimiter.localFlag (_cfg : RLConfig) (t : Translator) : Bool := t.localFlag

/-! ### Dummy backends (`dummy/none`, `dummy/original`) -/

/-- `NoneTranslator`: not local; `translate` returns the empty string,
`translate_vec` the empty list, whatever the input. -/
def NoneTranslator : Translator :=
  ⟨false,
   fun _ _ _ _ => .ok ⟨[], none⟩,
   fun _ _ _ _ => .ok ⟨[], none⟩⟩

/-- `OriginalTranslator`: not local; echoes its input back unchanged. -/
def OriginalTranslator : Translator :=
  ⟨false,
   fun input _ _ _ => .ok ⟨input, none⟩,
   fun items _ _ _ => .ok ⟨items, none⟩⟩

/-! ### JParaCrawl model lifecycle (`offline/jparacrawl`)

The resident set `loaded_models: HashMap<String, Translator>` is modelled as
an association list from model name to an opaque instance id. -/

/-- Outcomes of the external effects a load performs, one record per call
context: whether each artifact download succeeds, whether its hash check
passes, and what `ct2rs::Translator::with_tokenizer` returns. -/
structure ArtifactEnv where
  download_ok : List Char → Bool
  hash_ok : List Char → Bool
  build : List Char → Bool → Except TransError Nat

/-- Modelled from the spec: `download_model` (provided by the repository's
`interface_model` crate, which is not under `src/`) downloads the named
artifact if absent, verifies it against its `content_hash`, and returns the
local path; a failed download is a transport error and a failed verification
an integrity error, each fatal to the load attempt. -/
def download_model (env : ArtifactEnv) (name file : List Char) :
    Except TransError (List Char) :=
  if env.download_ok name then
    if env.hash_ok name then .ok file else .error (.HashMismatch name)
  else .error (.DownloadFailed name)

/-- Key membership of the resident set (`HashMap::contains_key`). -/
def containsModel (st : List (List Char × Nat)) (name : List Char) : Bool :=
  st.any (fun p => p.1 == name)

/-- `HashMap::insert`: replace any existing entry for the key. -/
def insertModel (st : List (List Char × Nat)) (name : List Char) (v : Nat) :
    List (List Char × Nat) :=
  st.filter (fun p => !(p.1 == name)) ++ [(name, v)]

/-- `JParaCrawlTranslator::custom_load`: fast path when the variant is
resident; otherwise download the model and both tokenizer artifacts, build
the translator (`MyTokenizer::new` is infallible in the source), and only
then — with every fallible step behind — drain the resident set when
`single_loaded` and insert the new instance.  Returns the result together
with the new resident set. -/
def custom_load (env : ArtifactEnv) (single_loaded : Bool)
    (st : List (List Char × Nat)) (name : List Char) (en_ja : Bool) :
    Except TransError Unit × List (List Char × Nat) :=
  if containsModel st name then (.ok (), st)
  else
    match download_model env name (name ++ "/model.bin".toList) with
    | .error e => (.error e, st)
    | .ok model =>
      match download_model env "spm.nopretok".toList "spm.nopretok/spm.ja.nopretok.model".toList with
      | .error e => (.error e, st)
      | .ok _ja_path =>
        match download_model env "spm.nopretok".toList "spm.nopretok/spm.en.nopretok.model".toList with
        | .error e => (.error e, st)
        | .ok _en_path =>
          match env.build model en_ja with
          | .error e => (.error e, st)
          | .ok inst =>
            let st1 := if single_loaded then [] else st
            (.ok (), insertModel st1 name inst)

/-- `ModelLoad::loaded` for `JParaCrawlTranslator`:
`loaded_models.read().await.len() > 0`. -/
def loaded (st : List (List Char × Nat)) : Bool := decide (st.length > 0)

/-! ### Spec-side notions and concrete inputs used by the statements -/

/-- Spec-side tiling: repeat `u` and truncate to length `n` (the claims'
"tiling, truncated to the text's length"). -/
def tile (u : List Char) (n : Nat) : List Char :=
  (List.replicate (n / u.length) u).flatten ++ u.take (n % u.length)

/-- The query of the degenerate-repetition example. -/
def exQ : List Char := "AbAbAbAbAbAbAbAbAb".toList

/-- The raw output of the degenerate-repetition example. -/
def exT : List Char := "cdcdcdcdcdcdcdcdcd".toList

/-- The corrected output of the degenerate-repetition example. -/
def exR : List Char := "CdCdCdCdCdCdCdCdCd".toList

/-- Query of the first counterexample input (trigger arithmetic). -/
def cxQ1 : List Char := "XYZXYZ".toList

/-- Raw output of the first counterexample input: five characters, unit of
two — more than double the unit, yet half its length does not exceed the
unit's. -/
def cxT1 : List Char := "ababa".toList

/-- The minimal repeating unit of `cxT1`. -/
def cxU1 : List Char := "ab".toList

/-- What re-tiling `cxU1` to `cxQ1` with case mapping would produce. -/
def cxRetile1 : List Char := "ABABAB".toList

/-- Query of the second counterexample input (seven characters, not a
multiple of the unit length). -/
def cxQ2 : List Char := "ABCDEFG".toList

/-- Raw output of the second counterexample input. -/
def cxT2 : List Char := "cdcdcdcdcd".toList

/-- What the code produces on the second counterexample input: six
characters, not the query's seven. -/
def cxR2 : List Char := "CDCDCD".toList

/-- A sample query string. -/
def hiS : List Char := "hi".toList

/-- A non-valuable output string (punctuation only). -/
def bangS : List Char := "!!!".toList

/-- One-character sample strings and model names. -/
def zS : List Char := "z".toList

/-- Two-character already-normalized sample string. -/
def abS : List Char := "ab".toList

/-- Model variant name `a`. -/
def nmA : List Char := "a".toList

/-- Model variant name `b`. -/
def nmB : List Char := "b".toList

/-- Model variant name `x`. -/
def nmX : List Char := "x".toList

/-- An artifact environment in which every download, verification and build
succeeds. -/
def envAllOk : ArtifactEnv := ⟨fun _ => true, fun _ => true, fun _ _ => .ok 0⟩

/-- An artifact environment in which every download fails. -/
def envAllFail : ArtifactEnv := ⟨fun _ => false, fun _ => true, fun _ _ => .ok 0⟩

/-- A backend whose output is never valuable (punctuation only). -/
def bangTranslator : Translator :=
  ⟨false,
   fun _ _ _ _ => .ok ⟨bangS, none⟩,
   fun _ _ _ _ => .ok ⟨[bangS], none⟩⟩

/-! ### Helper lemmas -/

/-- A successful `custom_load` either found the variant resident (state
untouched) or inserted a freshly built instance, clearing the set first in
single-loaded mode. -/
theorem custom_load_ok_state (env : ArtifactEnv) (single : Bool)
    (st : List (List Char × Nat)) (name : List Char) (enja : Bool)
    (stOut : List (List Char × Nat))
    (h : custom_load env single st name enja = (.ok (), stOut)) :
    (containsModel st name = true ∧ stOut = st) ∨
    (containsModel st name = false ∧
      ∃ inst, stOut = insertModel (if single then [] else st) name inst) := by
  unfold custom_load at h
  split at h
  case isTrue hc =>
    left
    simp only [Prod.mk.injEq] at h
    exact ⟨hc, h.2.symm⟩
  case isFalse hc =>
    right
    refine ⟨by simpa using hc, ?_⟩
    split at h
    · simp at h
    · split at h
      · simp at h
      · split at h
        · simp at h
        · split at h
          · simp at h
          · simp only [Prod.mk.injEq] at h
            exact ⟨_, h.2.symm⟩

/-- A failed `custom_load` leaves the resident set untouched. -/
theorem custom_load_error_state (env : ArtifactEnv) (single : Bool)
    (st : List (List Char × Nat)) (name : List Char) (enja : Bool)
    (e : TransError) (st' : List (List Char × Nat))
    (h : custom_load env single st name enja = (.error e, st')) : st' = st := by
  unfold custom_load at h
  split at h
  · simp at h
  · split at h
    · simp only [Prod.mk.injEq] at h
      exact h.2.symm
    · split at h
      · simp only [Prod.mk.injEq] at h
        exact h.2.symm
      · split at h
        · simp only [Prod.mk.injEq] at h
          exact h.2.symm
        · split at h
          · simp only [Prod.mk.injEq] at h
            exact h.2.symm
          · simp at h

/-- A successful `acquire` conserves permits: one was taken iff returning it
restores the initial count. -/
theorem acquire_permits (cfg : RLConfig) (sched : List Nat) (s : RLState)
    (s' : RLState) (p : Bool)
    (h : RateLimiter.acquire cfg sched s = some (s', p)) :
    (if p then s'.permits + 1 else s'.permits) = s.permits := by
  simp only [RateLimiter.acquire] at h
  split at h
  · simp at h
  · split at h
    · simp only [Option.some.injEq, Prod.mk.injEq] at h
      obtain ⟨h1, h2⟩ := h
      subst h1; subst h2; simp
    · split at h
      · simp only [Option.some.injEq, Prod.mk.injEq] at h
        obtain ⟨h1, h2⟩ := h
        subst h1; subst h2
        simp only [if_true]
        omega
      · simp at h

/-- `RateLimiter::translate` returns the delegate's result verbatim and
restores the permit count. -/
theorem rl_translate_some (cfg : RLConfig) (sched : List Nat) (s : RLState)
    (t : Translator) (q : List Char) (ctx : Option PromptBuilder)
    (from_ : Option Language) (to_ : Language)
    (r : Except TransError TranslationOutput) (s'' : RLState)
    (h : RateLimiter.translate cfg sched s t q ctx from_ to_ = some (r, s'')) :
    r = t.translate q ctx from_ to_ ∧ s''.permits = s.permits := by
  unfold RateLimiter.translate at h
  cases hacq : RateLimiter.acquire cfg sched s with
  | none => rw [hacq] at h; simp at h
  | some sp =>
    obtain ⟨s', p⟩ := sp
    rw [hacq] at h
    simp only [Option.map_some', Option.some.injEq, Prod.mk.injEq] at h
    obtain ⟨h1, h2⟩ := h
    have hp := acquire_permits cfg sched s s' p hacq
    subst h2
    refine ⟨h1.symm, ?_⟩
    cases p <;> simp_all

/-- `RateLimiter::translate_vec` returns the delegate's result verbatim and
restores the permit count. -/
theorem rl_translate_vec_some (cfg : RLConfig) (sched : List Nat) (s : RLState)
    (t : Translator) (qs : List (List Char)) (ctx : Option PromptBuilder)
    (from_ : Option Language) (to_ : Language)
    (r : Except TransError TranslationListOutput) (s'' : RLState)
    (h : RateLimiter.translate_vec cfg sched s t qs ctx from_ to_ = some (r, s'')) :
    r = t.translate_vec qs ctx from_ to_ ∧ s''.permits = s.permits := by
  unfold RateLimiter.translate_vec at h
  cases hacq : RateLimiter.acquire cfg sched s with
  | none => rw [hacq] at h; simp at h
  | some sp =>
    obtain ⟨s', p⟩ := sp
    rw [hacq] at h
    simp only [Option.map_some', Option.some.injEq, Prod.mk.injEq] at h
    obtain ⟨h1, h2⟩ := h
    have hp := acquire_permits cfg sched s s' p hacq
    subst h2
    refine ⟨h1.symm, ?_⟩
    cases p <;> simp_all

/-! ### Claim theorems -/

/-- C4: identity law — when the declared source language equals the target,
`StyleTransfer::translate` and `translate_vec` return the input text unchanged
with that language, without invoking the wrapped capability (the result does
not depend on it). -/
theorem style_transfer_identity_law
    (reshape : List Char → List Char) (t1 t2 : Translator) (q : List Char)
    (qs : List (List Char)) (ctx : Option PromptBuilder) (L : Language) :
    StyleTransfer.translate reshape t1 q ctx (some L) L = .ok ⟨q, some L⟩
    ∧ StyleTransfer.translate reshape t1 q ctx (some L) L
        = StyleTransfer.translate reshape t2 q ctx (some L) L
    ∧ StyleTransfer.translate_vec reshape t1 qs ctx (some L) L = .ok ⟨qs, some L⟩
    ∧ StyleTransfer.translate_vec reshape t1 qs ctx (some L) L
        = StyleTransfer.translate_vec reshape t2 qs ctx (some L) L := by
  refine ⟨?_, ?_, ?_, ?_⟩ <;>
    simp [StyleTransfer.translate, StyleTransfer.translate_vec]

/-- C10: a `RateLimiter` constructed with no concurrency cap and no window cap
acquires nothing and is observationally the wrapped translator: `acquire`
leaves the state unchanged and takes no permit, and `translate`,
`translate_vec` and `local` pass through. -/
theorem rate_limiter_unconfigured_identity
    (sched : List Nat) (s : RLState) (t : Translator) (q : List Char)
    (qs : List (List Char)) (ctx : Option PromptBuilder)
    (from_ : Option Language) (to_ : Language) :
    RateLimiter.acquire (RateLimiter.new none none) sched s = some (s, false)
    ∧ RateLimiter.translate (RateLimiter.new none none) sched s t q ctx from_ to_
        = some (t.translate q ctx from_ to_, s)
    ∧ RateLimiter.translate_vec (RateLimiter.new none none) sched s t qs ctx from_ to_
        = some (t.translate_vec qs ctx from_ to_, s)
    ∧ RateLimiter.localFlag (RateLimiter.new none none) t = t.localFlag :=
  ⟨rfl, rfl, rfl, rfl⟩

/-- C7: rate-limiter transparency — whenever a `RateLimiter` call completes,
its result is exactly the wrapped capability's result on the unmodified
arguments (errors included, unchanged), and the concurrency permit taken by
the lease has been released (permit count restored) whatever the outcome. -/
theorem rate_limiter_transparency
    (cfg : RLConfig) (sched : List Nat) (s : RLState) (t : Translator)
    (q : List Char) (qs : List (List Char)) (ctx : Option PromptBuilder)
    (from_ : Option Language) (to_ : Language) :
    (∀ r s'', RateLimiter.translate cfg sched s t q ctx from_ to_ = some (r, s'') →
        r = t.translate q ctx from_ to_ ∧ s''.permits = s.permits)
    ∧ (∀ r s'', RateLimiter.translate_vec cfg sched s t qs ctx from_ to_ = some (r, s'') →
        r = t.translate_vec qs ctx from_ to_ ∧ s''.permits = s.permits) :=
  ⟨fun r s'' h => rl_translate_some cfg sched s t q ctx from_ to_ r s'' h,
   fun r s'' h => rl_translate_vec_some cfg sched s t qs ctx from_ to_ r s'' h⟩

/-- Witness for C7 at a fully configured limiter (one permit, window cap two
per ten ticks) on a concrete call. -/
theorem rate_limiter_transparency_witness :
    (RateLimiter.translate ⟨some 1, some (2, 10)⟩ [5] ⟨[], 1⟩ OriginalTranslator
        hiS none none Language.English
      = some (.ok ⟨hiS, none⟩, ⟨[5], 1⟩))
    ∧ ((Except.ok ⟨hiS, none⟩ : Except TransError TranslationOutput)
          = OriginalTranslator.translate hiS none none Language.English
        ∧ (RLState.mk [5] 1).permits = (RLState.mk [] 1).permits) :=
  ⟨rfl,
   (rate_limiter_transparency ⟨some 1, some (2, 10)⟩ [5] ⟨[], 1⟩ OriginalTranslator
      hiS [] none none Language.English).1 (.ok ⟨hiS, none⟩) ⟨[5], 1⟩ rfl⟩

/-- C8: asymmetric non-valuable fallback — when the identity short-circuit
does not apply and the delegate succeeds, the batch path substitutes the
original query text for each non-valuable item and cleans valuable items,
while the single path returns non-valuable output uncorrected and cleans
valuable output. -/
theorem style_transfer_fallback_asymmetry
    (reshape : List Char → List Char) (t : Translator) (q : List Char)
    (qs : List (List Char)) (ctx : Option PromptBuilder)
    (from_ : Option Language) (to_ : Language) (hne : from_ ≠ some to_) :
    (∀ out, t.translate q ctx from_ to_ = .ok out →
        StyleTransfer.translate reshape t q ctx from_ to_ =
          .ok ⟨if is_valuable_text out.text
               then clean_translation_output reshape q out.text to_
               else out.text, out.lang⟩)
    ∧ (∀ outs, t.translate_vec qs ctx from_ to_ = .ok outs →
        StyleTransfer.translate_vec reshape t qs ctx from_ to_ =
          .ok ⟨(qs.zip outs.text).map
                (fun p => if is_valuable_text p.2
                          then clean_translation_output reshape p.1 p.2 to_
                          else p.1), outs.lang⟩) := by
  constructor
  · intro out hd
    unfold StyleTransfer.translate
    rw [if_neg hne, hd]
    cases hv : is_valuable_text out.text <;> simp [hv]
  · intro outs hd
    unfold StyleTransfer.translate_vec
    rw [if_neg hne, hd]

/-- Witness for C8: a delegate that always answers pure punctuation; the
single path passes the punctuation through, the batch path restores the
query. -/
theorem style_transfer_fallback_asymmetry_witness :
    StyleTransfer.translate (fun v => v) bangTranslator hiS none none Language.English
      = .ok ⟨bangS, none⟩
    ∧ StyleTransfer.translate_vec (fun v => v) bangTranslator [hiS] none none Language.English
      = .ok ⟨[hiS], none⟩ := by
  have h := style_transfer_fallback_asymmetry (fun v => v) bangTranslator hiS [hiS]
      none none Language.English (by decide)
  have hb : is_valuable_text bangS = false := by decide
  constructor
  · rw [h.1 ⟨bangS, none⟩ rfl, hb]
    rfl
  · rw [h.2 ⟨[bangS], none⟩ rfl]
    simp [hb]

/-- C3: load-failure atomicity — a failed `custom_load` (download failure,
hash mismatch, or model-construction failure) reports the error to the caller
and leaves the resident model set exactly as it was. -/
theorem jparacrawl_load_failure_atomicity
    (env : ArtifactEnv) (single : Bool) (st : List (List Char × Nat))
    (name : List Char) (enja : Bool) (e : TransError)
    (st' : List (List Char × Nat))
    (h : custom_load env single st name enja = (.error e, st')) : st' = st :=
  custom_load_error_state env single st name enja e st' h

/-- Witness for C3: with every download failing, loading from the empty set
reports the transport error and the set stays empty. -/
theorem jparacrawl_load_failure_atomicity_witness :
    custom_load envAllFail true [] nmX true = (.error (.DownloadFailed nmX), [])
    ∧ ([] : List (List Char × Nat)) = [] :=
  ⟨rfl, jparacrawl_load_failure_atomicity envAllFail true [] nmX true
      (.DownloadFailed nmX) [] rfl⟩

/-- C2: single-loaded residency — loading variant `A` then a different
variant `B` from the empty set leaves, in single-loaded mode, exactly one
resident (namely `B`) with `loaded()` true; in multi-resident mode both `A`
and `B` are resident. -/
theorem jparacrawl_single_loaded_residency
    (envA envB : ArtifactEnv) (A B : List Char) (ea eb : Bool)
    (stA stB stA2 stB2 : List (List Char × Nat)) (hAB : A ≠ B)
    (h1 : custom_load envA true [] A ea = (.ok (), stA))
    (h2 : custom_load envB true stA B eb = (.ok (), stB))
    (h3 : custom_load envA false [] A ea = (.ok (), stA2))
    (h4 : custom_load envB false stA2 B eb = (.ok (), stB2)) :
    (loaded stB = true ∧ stB.map Prod.fst = [B])
    ∧ (stA2.map Prod.fst = [A] ∧ stB2.map Prod.fst = [A, B]
        ∧ loaded stB2 = true) := by
  have hBA : (A == B) = false := by
    simpa using hAB
  rcases custom_load_ok_state envA true [] A ea stA h1 with ⟨hc, rfl⟩ | ⟨-, ia, rfl⟩
  · simp [containsModel] at hc
  rcases custom_load_ok_state envA false [] A ea stA2 h3 with ⟨hc, rfl⟩ | ⟨-, ia2, rfl⟩
  · simp [containsModel] at hc
  rcases custom_load_ok_state envB true _ B eb stB h2 with ⟨hc, rfl⟩ | ⟨-, ib, rfl⟩
  · simp [containsModel, insertModel, hBA] at hc
  rcases custom_load_ok_state envB false _ B eb stB2 h4 with ⟨hc, rfl⟩ | ⟨-, ib2, rfl⟩
  · simp [containsModel, insertModel, hBA] at hc
  refine ⟨⟨?_, ?_⟩, ?_, ?_, ?_⟩ <;>
    simp [insertModel, loaded, hBA]

/-- Witness for C2 at two concrete variant names with every external step
succeeding. -/
theorem jparacrawl_single_loaded_residency_witness :
    nmA ≠ nmB
    ∧ ((loaded [(nmB, 0)] = true
          ∧ ([(nmB, 0)] : List (List Char × Nat)).map Prod.fst = [nmB])
        ∧ (([(nmA, 0)] : List (List Char × Nat)).map Prod.fst = [nmA]
            ∧ ([(nmA, 0), (nmB, 0)] : List (List Char × Nat)).map Prod.fst = [nmA, nmB]
            ∧ loaded [(nmA, 0), (nmB, 0)] = true)) :=
  ⟨by decide,
   jparacrawl_single_loaded_residency envAllOk envAllOk nmA nmB true true
     [(nmA, 0)] [(nmB, 0)] [(nmA, 0)] [(nmA, 0), (nmB, 0)]
     (by decide) rfl rfl rfl rfl⟩

/-- C6 counterexample: `NoneTranslator::translate_vec` succeeds with an empty
text list on a one-element batch — output length 0, input length 1 — so the
batch length contract does not hold for every implementation. -/
theorem batch_length_contract_counterexample :
    NoneTranslator.translate_vec [nmA] none none Language.English
      = .ok ⟨[], none⟩
    ∧ (TranslationListOutput.mk [] none).text.length ≠ ([nmA] : List (List Char)).length :=
  ⟨rfl, by decide⟩

/-- C6 amended: every embedded implementation except `NoneTranslator`
preserves batch length — `OriginalTranslator` echoes the batch,
`StyleTransfer` preserves length whenever its delegate does, and
`RateLimiter` returns the delegate's result unchanged; `NoneTranslator`
returns the empty list for every input. -/
theorem batch_length_contract_amended
    (reshape : List Char → List Char) (t : Translator) (qs : List (List Char))
    (ctx : Option PromptBuilder) (from_ : Option Language) (to_ : Language)
    (cfg : RLConfig) (sched : List Nat) (s : RLState)
    (hlen : ∀ outs, t.translate_vec qs ctx from_ to_ = .ok outs →
        outs.text.length = qs.length) :
    OriginalTranslator.translate_vec qs ctx from_ to_ = .ok ⟨qs, none⟩
    ∧ (∀ r, StyleTransfer.translate_vec reshape t qs ctx from_ to_ = .ok r →
        r.text.length = qs.length)
    ∧ (∀ r s'', RateLimiter.translate_vec cfg sched s t qs ctx from_ to_ = some (r, s'') →
        r = t.translate_vec qs ctx from_ to_)
    ∧ NoneTranslator.translate_vec qs ctx from_ to_ = .ok ⟨[], none⟩ := by
  refine ⟨rfl, ?_, ?_, rfl⟩
  · intro r hr
    unfold StyleTransfer.translate_vec at hr
    split at hr
    · simp only [Except.ok.injEq] at hr
      rw [← hr]
    · cases hd : t.translate_vec qs ctx from_ to_ with
      | error e => rw [hd] at hr; simp at hr
      | ok outs =>
        rw [hd] at hr
        simp only [Except.ok.injEq] at hr
        rw [← hr]
        simp [List.length_zip, hlen outs hd]
  · intro r s'' h
    exact (rl_translate_vec_some cfg sched s t qs ctx from_ to_ r s'' h).1

/-- Witness for C6 (amended) through the length-preserving identity
delegate on a one-element batch. -/
theorem batch_length_contract_amended_witness :
    StyleTransfer.translate_vec (fun v => v) OriginalTranslator [nmA] none none
        Language.English = .ok ⟨[nmA], none⟩
    ∧ (TranslationListOutput.mk [nmA] none).text.length
        = ([nmA] : List (List Char)).length :=
  ⟨rfl,
   (batch_length_contract_amended (fun v => v) OriginalTranslator [nmA]
      none none Language.English ⟨none, none⟩ [] ⟨[], 0⟩
      (fun outs houts => by
        simp only [OriginalTranslator, Except.ok.injEq] at houts
        rw [← houts])).2.1 ⟨[nmA], none⟩ rfl⟩

/-- `find?` over `range' st n` characterized: a hit is in range, satisfies the
predicate, and everything before it fails it. -/
theorem find?_range'_eq_some (p : Nat → Bool) :
    ∀ (n st i : Nat), (List.range' st n).find? p = some i →
      st ≤ i ∧ i < st + n ∧ p i = true ∧ ∀ j, st ≤ j → j < i → p j = false := by
  intro n
  induction n with
  | zero => intro st i h; simp [List.range'] at h
  | succ k ih =>
    intro st i h
    rw [List.range'_succ] at h
    cases hst : p st with
    | true =>
      rw [List.find?_cons_of_pos _ hst] at h
      simp only [Option.some.injEq] at h
      subst h
      exact ⟨le_refl _, by omega, hst, fun j hj1 hj2 => absurd hj1 (by omega)⟩
    | false =>
      rw [List.find?_cons_of_neg _ (by simp [hst])] at h
      obtain ⟨hi1, hi2, hi3, hi4⟩ := ih (st + 1) i h
      refine ⟨by omega, by omega, hi3, ?_⟩
      intro j hj1 hj2
      rcases Nat.eq_or_lt_of_le hj1 with rfl | hlt
      · exact hst
      · exact hi4 j (by omega) hj2

/-- `find?` over `range' st n` returning nothing: the predicate fails on the
whole range. -/
theorem find?_range'_eq_none (p : Nat → Bool) :
    ∀ (n st : Nat), (List.range' st n).find? p = none →
      ∀ j, st ≤ j → j < st + n → p j = false := by
  intro n
  induction n with
  | zero => intro st h j hj1 hj2; omega
  | succ k ih =>
    intro st h j hj1 hj2
    rw [List.range'_succ] at h
    cases hst : p st with
    | true => rw [List.find?_cons_of_pos _ hst] at h; simp at h
    | false =>
      rw [List.find?_cons_of_neg _ (by simp [hst])] at h
      rcases Nat.eq_or_lt_of_le hj1 with rfl | hlt
      · exact hst
      · exact ih (st + 1) h j (by omega) (by omega)

/-- The candidate the source builds for index `i` is the spec-side tiling of
the `i`-prefix. -/
theorem tileCandidate_eq_tile (s : List Char) (i : Nat) (hi : i ≤ s.length) :
    tileCandidate s i = tile (s.take i) s.length := by
  unfold tileCandidate tile
  rw [List.length_take, Nat.min_eq_left hi]

/-- `repeating_sequence` returns the shortest prefix of length in
`1..=len/2` whose tiling reconstructs the string, or the whole string when
none exists. -/
theorem repeating_sequence_spec (s : List Char) :
    repeating_sequence s = s.take (repeating_sequence s).length
    ∧ tile (repeating_sequence s) s.length = s
    ∧ ((repeating_sequence s).length ≤ s.length / 2 ∨ repeating_sequence s = s)
    ∧ ∀ j, 1 ≤ j → j ≤ s.length / 2 → j < (repeating_sequence s).length →
        tile (s.take j) s.length ≠ s := by
  cases hf : (List.range' 1 (s.length / 2)).find?
      (fun i => decide (tileCandidate s i = s)) with
  | some i =>
    obtain ⟨hi1, hi2, hi3, hi4⟩ := find?_range'_eq_some _ _ _ _ hf
    have hi3' : tileCandidate s i = s := of_decide_eq_true hi3
    have hile : i ≤ s.length / 2 := by omega
    have hilen : i ≤ s.length := le_trans hile (Nat.div_le_self _ _)
    have hlt : (s.take i).length = i := by rw [List.length_take]; omega
    simp only [repeating_sequence, hf]
    refine ⟨?_, ?_, ?_, ?_⟩
    · rw [hlt]
    · rw [← tileCandidate_eq_tile s i hilen]
      exact hi3'
    · left
      rw [hlt]
      exact hile
    · intro j hj1 hj2 hj3
      rw [hlt] at hj3
      have hp := hi4 j (by omega) hj3
      rw [← tileCandidate_eq_tile s j (le_trans hj2 (Nat.div_le_self _ _))]
      exact of_decide_eq_false hp
  | none =>
    have hnone := find?_range'_eq_none _ _ _ hf
    simp only [repeating_sequence, hf]
    refine ⟨?_, ?_, Or.inr trivial, ?_⟩
    · rw [List.take_length]
    · unfold tile
      rcases Nat.eq_zero_or_pos s.length with hz | hpos
      · obtain rfl := List.length_eq_zero.mp hz
        rfl
      · rw [Nat.div_self hpos, Nat.mod_self]
        simp
    · intro j hj1 hj2 hj3
      have hp := hnone j (by omega) (by omega)
      rw [← tileCandidate_eq_tile s j (le_trans hj2 (Nat.div_le_self _ _))]
      exact of_decide_eq_false hp

/-- C5 counterexample.  First input: query `XYZXYZ`, output `ababa` — the
unit `ab` is shorter than the query and the output is more than double the
unit, yet the code leaves the output unchanged (its trigger compares against
half the length rounded down).  Second input: query `ABCDEFG` (7 chars),
output `cdcdcdcdcd` — the correction fires but produces `CDCDCD`, 6
characters, not the query's 7. -/
theorem clean_degenerate_repetition_counterexample :
    (repeating_sequence cxT1 = cxU1
      ∧ byteLen cxU1 < byteLen cxQ1
      ∧ byteLen cxT1 > 2 * byteLen cxU1
      ∧ clean_translation_output (fun v => v) cxQ1 cxT1 Language.English = cxT1
      ∧ cxT1 ≠ cxRetile1)
    ∧ (clean_translation_output (fun v => v) cxQ2 cxT2 Language.English = cxR2
      ∧ cxR2.length ≠ cxQ2.length) :=
  ⟨⟨rfl, by decide, by decide, rfl, by decide⟩, rfl, by decide⟩

/-- C5 amended: the minimal repeating unit is as claimed (shortest tiling
prefix of length in `1..=len/2`, else the whole string); the correction fires
when the unit's byte length is below the query's byte length and below half
the cleaned text's byte length rounded down, and then re-tiles the unit
`max 1 (query chars / unit chars)` times, case-mapped positionally against
the query and truncated to the shorter of the two; on the example query
`AbAb…` with output `cdcd…` this yields `CdCd…`. -/
theorem clean_degenerate_repetition_amended :
    (∀ s : List Char,
        repeating_sequence s = s.take (repeating_sequence s).length
        ∧ tile (repeating_sequence s) s.length = s
        ∧ ((repeating_sequence s).length ≤ s.length / 2 ∨ repeating_sequence s = s)
        ∧ ∀ j, 1 ≤ j → j ≤ s.length / 2 → j < (repeating_sequence s).length →
            tile (s.take j) s.length ≠ s)
    ∧ (∀ (reshape : List Char → List Char) (q t : List Char) (L : Language),
        L ≠ Language.Arabic →
        clean_translation_output reshape q t L =
          (let c := normalizeSteps L t
           let u := repeating_sequence (c.map Char.toLower)
           if byteLen u < byteLen q ∧ byteLen c / 2 > byteLen u then
             (q.zip ((List.replicate (max 1 (q.length / u.length)) u).flatten)).map
               (fun p => if p.1.isUpper then p.2.toUpper else p.2)
           else c))
    ∧ clean_translation_output (fun v => v) exQ exT Language.English = exR := by
  refine ⟨repeating_sequence_spec, ?_, rfl⟩
  intro reshape q t L hL
  simp only [clean_translation_output]
  rw [if_neg hL]

/-- Witness for C5 (amended): minimality applied at prefix length 1 of
`ababa`, and the step-5 description applied at the first counterexample
input. -/
theorem clean_degenerate_repetition_amended_witness :
    tile (cxT1.take 1) cxT1.length ≠ cxT1
    ∧ clean_translation_output (fun v => v) cxQ1 cxT1 Language.English =
        (let c := normalizeSteps Language.English cxT1
         let u := repeating_sequence (c.map Char.toLower)
         if byteLen u < byteLen cxQ1 ∧ byteLen c / 2 > byteLen u then
           (cxQ1.zip ((List.replicate (max 1 (cxQ1.length / u.length)) u).flatten)).map
             (fun p => if p.1.isUpper then p.2.toUpper else p.2)
         else c) :=
  ⟨(clean_degenerate_repetition_amended.1 cxT1).2.2.2 1 (by decide) (by decide) (by decide),
   clean_degenerate_repetition_amended.2.1 (fun v => v) cxQ1 cxT1 Language.English
     (by decide)⟩

/-- C9 counterexample: `ab` is a fixed point of every normalization step and
does not trigger the repetition correction against query `z`, yet with target
language Arabic `clean_translation_output` returns the external reshaper's
output, not `ab` — idempotence as stated fails for the Arabic target. -/
theorem clean_idempotence_counterexample :
    collapseWs abS = abS ∧ r1 abS = abS ∧ r2 abS = abS ∧ r3 abS = abS ∧ r4 abS = abS
    ∧ ¬(byteLen (repeating_sequence (abS.map Char.toLower)) < byteLen zS
        ∧ byteLen abS / 2 > byteLen (repeating_sequence (abS.map Char.toLower)))
    ∧ clean_translation_output (fun _ => nmX) zS abS Language.Arabic ≠ abS :=
  ⟨rfl, rfl, rfl, rfl, rfl, by decide, by decide⟩

/-- C9 amended: on text fixed by each normalization step and not triggering
the repetition correction against the query, `clean_translation_output` is
the identity for every non-Arabic target (hence idempotent there); for the
Arabic target it returns the external reshaping pass applied to the text. -/
theorem clean_translation_output_idempotent
    (reshape : List Char → List Char) (q t : List Char)
    (hc : collapseWs t = t) (h1 : r1 t = t) (h2 : r2 t = t)
    (h3 : r3 t = t) (h4 : r4 t = t)
    (hseq : ¬(byteLen (repeating_sequence (t.map Char.toLower)) < byteLen q
        ∧ byteLen t / 2 > byteLen (repeating_sequence (t.map Char.toLower)))) :
    (∀ L, L ≠ Language.Arabic → clean_translation_output reshape q t L = t)
    ∧ clean_translation_output reshape q t Language.Arabic = reshape t
    ∧ (∀ L, L ≠ Language.Arabic →
        clean_translation_output reshape q (clean_translation_output reshape q t L) L
          = clean_translation_output reshape q t L) := by
  have hnorm : ∀ L, normalizeSteps L t = t := by
    intro L
    simp only [normalizeSteps, hc]
    split
    · rw [h1, h2, h3, h4]
    · rw [h1, h2]
  have hmain : ∀ L, L ≠ Language.Arabic → clean_translation_output reshape q t L = t := by
    intro L hL
    simp only [clean_translation_output, hnorm L]
    rw [if_neg hseq, if_neg hL]
  refine ⟨hmain, ?_, ?_⟩
  · simp only [clean_translation_output, hnorm Language.Arabic]
    rw [if_neg hseq]
    simp
  · intro L hL
    rw [hmain L hL]
    exact hmain L hL

/-- Witness for C9 (amended) at query `z`, text `ab`, for the English and
Arabic targets with the identity reshaper. -/
theorem clean_translation_output_idempotent_witness :
    clean_translation_output (fun v => v) zS abS Language.English = abS
    ∧ clean_translation_output (fun v => v) zS abS Language.Arabic = abS := by
  have h := clean_translation_output_idempotent (fun v => v) zS abS
      rfl rfl rfl rfl rfl (by decide)
  exact ⟨h.1 Language.English (by decide), h.2.1⟩

/-- Monotonicity of `countP` under pointwise implication of predicates. -/
theorem cntP_mono {α : Type} {p q : α → Bool} :
    ∀ l : List α, (∀ x ∈ l, p x = true → q x = true) → l.countP p ≤ l.countP q := by
  intro l h
  induction l with
  | nil => simp
  | cons a tl ih =>
    rw [List.countP_cons, List.countP_cons]
    have ih' := ih (fun x hx => h x (List.mem_cons_of_mem a hx))
    cases hpa : p a
    · simp only [Bool.false_eq_true, if_false]
      have : (if q a then 1 else 0) ≥ 0 := Nat.zero_le _
      omega
    · rw [h a (List.mem_cons_self a tl) hpa]
      simp only [if_true]
      omega

/-- On a nondecreasing queue, popping stale entries from the front removes
exactly the stale entries. -/
theorem dropWhile_stale (w now : Nat) :
    ∀ l : List Nat, List.Sorted (· ≤ ·) l →
      l.dropWhile (fun t => decide (w < now - t))
        = l.filter (fun t => decide (now - t ≤ w)) := by
  intro l hl
  induction l with
  | nil => rfl
  | cons a tl ih =>
    rw [List.sorted_cons] at hl
    obtain ⟨ha, htl⟩ := hl
    by_cases hfresh : now - a ≤ w
    · rw [List.dropWhile_cons_of_neg (by simp; omega),
        List.filter_cons_of_pos (by simp [hfresh])]
      rw [List.filter_eq_self.mpr]
      intro b hb
      have hab : a ≤ b := ha b hb
      simp only [decide_eq_true_eq]
      omega
    · rw [List.dropWhile_cons_of_pos (by simp; omega),
        List.filter_cons_of_neg (by simp [hfresh])]
      exact ih htl

/-- Filtering by a stricter freshness bound absorbs a previous filter. -/
theorem filter_filter_subsume (f1 f2 : Nat → Bool)
    (himp : ∀ t, f2 t = true → f1 t = true) :
    ∀ P : List Nat, (P.filter f1).filter f2 = P.filter f2 := by
  intro P
  rw [List.filter_filter]
  apply List.filter_congr
  intro x _
  cases h2 : f2 x
  · simp
  · simp [himp x h2]

/-- The master induction for the sliding-window invariant.  `P` is the list
of previously admitted timestamps, `c` the last processed attempt time; the
queue is then exactly the fresh part of `P`, every window interval contains
at most `m` of `P`, and both conclusions propagate through the remaining
attempts. -/
theorem rl_master (m w : Nat) :
    ∀ (ts : List Nat) (c : Nat) (P : List Nat),
      List.Sorted (· ≤ ·) (c :: ts) → List.Sorted (· ≤ ·) P →
      (∀ t ∈ P, t ≤ c) →
      (∀ a : Nat, P.countP (fun t => decide (a ≤ t) && decide (t ≤ a + w)) ≤ m) →
      (∀ p ∈ admissionStates m w ts (P.filter (fun t => decide (c - t ≤ w))),
          p.2.length ≤ m ∧ p.1 ∈ p.2 ∧ ∀ t ∈ p.2, p.1 - t ≤ w)
      ∧ (∀ a : Nat,
          (P ++ (runAcq m w ts (P.filter (fun t => decide (c - t ≤ w)))).2).countP
            (fun t => decide (a ≤ t) && decide (t ≤ a + w)) ≤ m) := by
  intro ts
  induction ts with
  | nil =>
    intro c P hcs hP hPc hcount
    constructor
    · intro p hp
      simp [admissionStates] at hp
    · intro a
      simpa [runAcq] using hcount a
  | cons now rest ih =>
    intro c P hcs hP hPc hcount
    have hcnow : c ≤ now := by
      rw [List.sorted_cons] at hcs
      exact hcs.1 now (by simp)
    have hrest : List.Sorted (· ≤ ·) (now :: rest) := by
      rw [List.sorted_cons] at hcs
      exact hcs.2
    have hqsorted : List.Sorted (· ≤ ·) (P.filter (fun t => decide (c - t ≤ w))) :=
      hP.filter _
    have hpurge :
        (P.filter (fun t => decide (c - t ≤ w))).dropWhile (fun t => decide (w < now - t))
          = P.filter (fun t => decide (now - t ≤ w)) := by
      rw [dropWhile_stale w now _ hqsorted]
      exact filter_filter_subsume _ _
        (fun t ht => by
          simp only [decide_eq_true_eq] at ht ⊢
          omega) P
    by_cases hlen : (P.filter (fun t => decide (now - t ≤ w))).length < m
    · -- this attempt admits
      have hstep : stepAcq m w now (P.filter (fun t => decide (c - t ≤ w)))
          = (P.filter (fun t => decide (now - t ≤ w)) ++ [now], true) := by
        simp only [stepAcq, hpurge]
        rw [if_pos hlen]
      have hnewq : P.filter (fun t => decide (now - t ≤ w)) ++ [now]
          = (P ++ [now]).filter (fun t => decide (now - t ≤ w)) := by
        rw [List.filter_append]
        congr 1
        simp
      have hP' : List.Sorted (· ≤ ·) (P ++ [now]) := by
        refine List.pairwise_append.mpr ⟨hP, by simp, ?_⟩
        intro x hx y hy
        simp only [List.mem_singleton] at hy
        subst hy
        exact le_trans (hPc x hx) hcnow
      have hPc' : ∀ t ∈ P ++ [now], t ≤ now := by
        intro t ht
        rcases List.mem_append.mp ht with h | h
        · exact le_trans (hPc t h) hcnow
        · simp only [List.mem_singleton] at h
          omega
      have hcount' : ∀ a : Nat,
          (P ++ [now]).countP (fun t => decide (a ≤ t) && decide (t ≤ a + w)) ≤ m := by
        intro a
        rw [List.countP_append]
        by_cases hnowin : a ≤ now ∧ now ≤ a + w
        · have h1 : List.countP (fun t => decide (a ≤ t) && decide (t ≤ a + w)) [now] = 1 := by
            simp [hnowin.1, hnowin.2]
          have h2 : P.countP (fun t => decide (a ≤ t) && decide (t ≤ a + w))
              ≤ P.countP (fun t => decide (now - t ≤ w)) := by
            apply cntP_mono
            intro x hx hpx
            simp only [Bool.and_eq_true, decide_eq_true_eq] at hpx ⊢
            omega
          have h3 : P.countP (fun t => decide (now - t ≤ w))
              = (P.filter (fun t => decide (now - t ≤ w))).length :=
            List.countP_eq_length_filter _ _
          omega
        · have hnot : ¬ ((fun t => decide (a ≤ t) && decide (t ≤ a + w)) now = true) := by
            simp only [Bool.and_eq_true, decide_eq_true_eq]
            exact hnowin
          have h1 : List.countP (fun t => decide (a ≤ t) && decide (t ≤ a + w)) [now] = 0 := by
            simp [List.countP_cons, hnot]
          have := hcount a
          omega
      have ihres := ih now (P ++ [now]) hrest hP' hPc' hcount'
      constructor
      · intro p hp
        rw [show admissionStates m w (now :: rest) (P.filter (fun t => decide (c - t ≤ w)))
            = (now, P.filter (fun t => decide (now - t ≤ w)) ++ [now]) ::
              admissionStates m w rest
                ((P ++ [now]).filter (fun t => decide (now - t ≤ w)))
          from by
            simp only [admissionStates, hstep, hnewq]
            simp] at hp
        rcases List.mem_cons.mp hp with rfl | hp'
        · refine ⟨?_, ?_, ?_⟩
          · simp only [List.length_append, List.length_singleton]
            omega
          · exact List.mem_append_right _ (by simp)
          · intro t ht
            rcases List.mem_append.mp ht with h | h
            · have := List.of_mem_filter h
              simpa using this
            · simp only [List.mem_singleton] at h
              omega
        · exact ihres.1 p hp'
      · intro a
        rw [show (runAcq m w (now :: rest) (P.filter (fun t => decide (c - t ≤ w)))).2
            = now :: (runAcq m w rest
                ((P ++ [now]).filter (fun t => decide (now - t ≤ w)))).2
          from by
            simp only [runAcq, hstep, hnewq]
            simp]
        have hm := ihres.2 a
        simp only [List.countP_append, List.countP_cons, List.countP_nil] at hm ⊢
        cases hpnow : (fun t => decide (a ≤ t) && decide (t ≤ a + w)) now <;>
          simp [hpnow] at hm ⊢ <;> omega
    · -- this attempt stays blocked
      have hstep : stepAcq m w now (P.filter (fun t => decide (c - t ≤ w)))
          = (P.filter (fun t => decide (now - t ≤ w)), false) := by
        simp only [stepAcq, hpurge]
        rw [if_neg hlen]
      have ihres := ih now P hrest hP (fun t ht => le_trans (hPc t ht) hcnow) hcount
      constructor
      · intro p hp
        rw [show admissionStates m w (now :: rest) (P.filter (fun t => decide (c - t ≤ w)))
            = admissionStates m w rest (P.filter (fun t => decide (now - t ≤ w)))
          from by
            simp only [admissionStates, hstep]
            simp] at hp
        exact ihres.1 p hp
      · intro a
        rw [show (runAcq m w (now :: rest) (P.filter (fun t => decide (c - t ≤ w)))).2
            = (runAcq m w rest (P.filter (fun t => decide (now - t ≤ w)))).2
          from by
            simp only [runAcq, hstep]
            simp]
        exact ihres.2 a

/-- C1: sliding-window cap invariant — along any nondecreasing trace of
window-loop attempts started from the empty queue, (a) at the instant any
attempt is admitted the queue holds the new timestamp and at most `m`
timestamps, all within `w` of the admission time; and (b) every time interval
`[a, a + w]` contains at most `m` admitted timestamps. -/
theorem rate_limiter_sliding_window_cap (m w : Nat) (ts : List Nat)
    (hts : List.Sorted (· ≤ ·) ts) :
    (∀ p ∈ admissionStates m w ts [],
        p.2.length ≤ m ∧ p.1 ∈ p.2 ∧ ∀ t ∈ p.2, p.1 - t ≤ w)
    ∧ (∀ a : Nat, ((runAcq m w ts []).2.countP
          (fun t => decide (a ≤ t) && decide (t ≤ a + w))) ≤ m) := by
  have h := rl_master m w ts 0 []
    (by rw [List.sorted_cons]; exact ⟨fun b _ => Nat.zero_le b, hts⟩)
    (by simp) (by simp) (by simp)
  simpa using h

/-- Witness for C1 on the trace `[0, 0, 2]` with `m = 1`, `w = 1`. -/
theorem rate_limiter_sliding_window_cap_witness :
    List.Sorted (· ≤ ·) [0, 0, 2]
    ∧ ((runAcq 1 1 [0, 0, 2] []).2.countP
        (fun t => decide (0 ≤ t) && decide (t ≤ 0 + 1))) ≤ 1 :=
  ⟨by decide, (rate_limiter_sliding_window_cap 1 1 [0, 0, 2] (by decide)).2 0⟩

end AioTranslator
